/-
Verification of the pdf-to-podcast pipeline core (rate limiter, TTS chunker,
script validator, progress manifest, audio-generation stage).

Python strings are modelled as lists of Unicode code points (`List Char`),
which matches Python's `len`/slicing semantics.  Wall-clock instants are
modelled as rationals (rate limiter) or abstract natural-number ticks
(manifest timestamps).  External collaborators (the TTS network call, the
stdlib `wave` container writer, the filesystem) are modelled as oracle
function arguments or abstracted to the payloads the core manipulates.
-/
import Mathlib

namespace PdfPodcast

/-- Python `str` values, as lists of code points. -/
abbrev PyStr := List Char

/-- Python `str.lower()` (per code point). -/
def pyLower (s : PyStr) : PyStr := s.map Char.toLower

/-- Python `needle in haystack` for strings: `needle` occurs contiguously. -/
def pyContains : PyStr → PyStr → Bool
  | [], needle => needle.isEmpty
  | h :: t, needle => needle.isPrefixOf (h :: t) || pyContains t needle

/-- Python `s.endswith(suffix)`. -/
def pyEndsWith (s suffix : PyStr) : Bool := suffix.isSuffixOf s

/-- Python `s.strip()`. -/
def pyStrip (s : PyStr) : PyStr :=
  ((s.dropWhile Char.isWhitespace).reverse.dropWhile Char.isWhitespace).reverse

/-! ## tts_chunk_processor.py -/

/-- One dialogue line `{"speaker": ..., "text": ...}`. -/
structure DialogueLine where
  speaker : PyStr
  text : PyStr
  deriving DecidableEq, BEq, Inhabited

/-- `sum(len(line["text"]) for line in lines)`. -/
def totalChars (lines : List DialogueLine) : ℕ :=
  (lines.map (fun l => l.text.length)).sum

/-- `TTSChunkProcessor` chunking constants. -/
def MAX_CHUNK_LINES : ℕ := 15

def MAX_CHUNK_CHARS : ℕ := 1200

def PREFERRED_CHUNK_LINES : ℕ := 12

def PREFERRED_CHUNK_CHARS : ℕ := 1000

/-- The `natural_endings` list of `TTSChunkProcessor._is_natural_ending`. -/
def naturalEndings : List PyStr :=
  ["。".toList, "！".toList, "？".toList, ".".toList, "!".toList, "?".toList,
   "ですね".toList, "ですが".toList, "ました".toList, "ます".toList]

/-- `TTSChunkProcessor._is_natural_ending`. -/
def isNaturalEnding (text : PyStr) : Bool :=
  naturalEndings.any (fun e => pyEndsWith text e)

/-- `TTSChunkProcessor._find_natural_split_point` (its `all_lines` and
`next_index` parameters are unused in the source body; the scan runs over the
last `min 5 n` indices, skips `i <= 0`, and stops at the first index where the
speaker changes and the previous line ends naturally). -/
def findNaturalSplitPoint (currentChunk : List DialogueLine) : ℕ :=
  let n := currentChunk.length
  let checkRange := min 5 n
  match (List.range' (n - checkRange) checkRange).find? (fun i =>
      decide (0 < i) &&
      ((currentChunk.getD i default).speaker != (currentChunk.getD (i - 1) default).speaker) &&
      isNaturalEnding (pyStrip (currentChunk.getD (i - 1) default).text)) with
  | some i => i
  | none => n

/-- The main accumulation loop of `TTSChunkProcessor.split_dialogue_for_tts`
(state: produced chunks, current chunk, current character count). -/
def splitLoop : List DialogueLine → List (List DialogueLine) → List DialogueLine → ℕ →
    List (List DialogueLine)
  | [], chunks, currentChunk, _ =>
      if currentChunk.isEmpty then chunks else chunks ++ [currentChunk]
  | line :: rest, chunks, currentChunk, currentChars =>
      let lineChars := line.text.length
      let willExceedLines := MAX_CHUNK_LINES < currentChunk.length + 1
      let willExceedChars := MAX_CHUNK_CHARS < currentChars + lineChars
      if ¬currentChunk.isEmpty ∧ (willExceedLines ∨ willExceedChars) then
        let splitPoint := findNaturalSplitPoint currentChunk
        if splitPoint ≠ currentChunk.length then
          let finalChunk := currentChunk.take splitPoint
          let remainingLines := currentChunk.drop splitPoint
          let chunks' := if finalChunk.isEmpty then chunks else chunks ++ [finalChunk]
          let newCurrent := remainingLines ++ [line]
          splitLoop rest chunks' newCurrent (totalChars newCurrent)
        else
          splitLoop rest (chunks ++ [currentChunk]) [line] lineChars
      else
        splitLoop rest chunks (currentChunk ++ [line]) (currentChars + lineChars)

/-- `TTSChunkProcessor.split_dialogue_for_tts`. -/
def split_dialogue_for_tts (dialogue_lines : List DialogueLine) : List (List DialogueLine) :=
  if dialogue_lines.length ≤ PREFERRED_CHUNK_LINES ∧
      totalChars dialogue_lines ≤ PREFERRED_CHUNK_CHARS then
    [dialogue_lines]
  else
    splitLoop dialogue_lines [] [] 0

/-- `TTSChunkProcessor._create_silence_chunk`: raw zero frames for the given
duration at 24000 Hz, 1 channel, 2 bytes per sample (the WAV container header
added by the stdlib `wave` module is an excluded external collaborator). -/
def createSilenceChunk (duration : ℚ) : List ℕ :=
  let sampleRate : ℕ := 24000
  let channels : ℕ := 1
  let sampleWidth : ℕ := 2
  let numFrames : ℕ := (⌊duration * sampleRate⌋).toNat
  List.replicate (numFrames * channels * sampleWidth) 0

/-- The loop of `TTSChunkProcessor.process_chunks_sequentially`;
`synth i chunk` is the outcome of the external TTS call for the `i`-th chunk
(1-based, as `enumerate(chunks, 1)`), `.error` modelling a raised exception. -/
def processChunksSeqAux (synth : ℕ → List DialogueLine → Except PyStr (List ℕ)) :
    ℕ → List (List DialogueLine) → List (List ℕ)
  | _, [] => []
  | i, chunk :: rest =>
      (match synth i chunk with
       | .ok audioData => audioData
       | .error _ => createSilenceChunk 1) :: processChunksSeqAux synth (i + 1) rest

/-- `TTSChunkProcessor.process_chunks_sequentially` (with a TTS client set). -/
def process_chunks_sequentially (synth : ℕ → List DialogueLine → Except PyStr (List ℕ))
    (chunks : List (List DialogueLine)) : List (List ℕ) :=
  processChunksSeqAux synth 1 chunks

/-! ## rate_limiter.py -/

/-- `RateLimitConfig` (delays in seconds, as rationals). -/
structure RateLimitConfig where
  rpm_limit : ℕ := 15
  max_retries : ℕ := 5
  base_delay : ℚ := 2
  max_delay : ℚ := 60
  jitter : Bool := true
  deriving DecidableEq

/-- Python `min(...)` over a list of instants (`none` on an empty list, where
the source would raise `ValueError`). -/
def pyMin : List ℚ → Option ℚ
  | [] => none
  | x :: xs => some (xs.foldl min x)

/-- The pruning step of `GeminiRateLimiter.acquire`:
`[t for t in self.request_times if t > now - 60.0]`. -/
def pruneWindow (ts : List ℚ) (now : ℚ) : List ℚ :=
  ts.filter (fun t => now - 60 < t)

/-- Number of recorded timestamps inside the trailing 60-second window at
instant `now`. -/
def windowCount (ts : List ℚ) (now : ℚ) : ℕ :=
  (pruneWindow ts now).length

/-- `GeminiRateLimiter.acquire`, entered at wall-clock instant `now`; `δ ≥ 0`
is the (arbitrary) extra time that elapses between the end of the optional
sleep and the final `time.time()` that is recorded.  Returns the new
`request_times` list and the instant at which the request was recorded. -/
def acquire (rpm : ℕ) (ts : List ℚ) (now δ : ℚ) : List ℚ × ℚ :=
  let pruned := pruneWindow ts now
  if rpm ≤ pruned.length then
    match pyMin pruned with
    | some oldest =>
        let wait := 60 - (now - oldest)
        let now2 := (if 0 < wait then now + wait else now) + δ
        (pruned ++ [now2], now2)
    | none => (pruned ++ [now + δ], now + δ)
  else
    (pruned ++ [now + δ], now + δ)

/-- A whole sequence of `acquire()` calls starting from the empty window at
instant 0; each call is described by a nonnegative gap since the previous
call returned and a nonnegative recording delay `δ`. -/
def runAcquire (rpm : ℕ) (calls : List (ℚ × ℚ)) : List ℚ × ℚ :=
  calls.foldl (fun st c => acquire rpm st.1 (st.2 + c.1) c.2) ([], 0)

/-- The rate-limit indicator substrings of `call_with_backoff`. -/
def rateLimitIndicators : List PyStr :=
  ["429".toList, "rate limit".toList, "quota".toList, "too many requests".toList]

/-- The server-error indicator substrings of `call_with_backoff`. -/
def serverErrorIndicators : List PyStr :=
  ["500".toList, "502".toList, "503".toList, "504".toList, "server error".toList]

/-- `any(indicator in error_msg for indicator in [...])` on the lowercased
message, rate-limit class. -/
def isRateLimitError (e : PyStr) : Bool :=
  rateLimitIndicators.any (fun ind => pyContains (pyLower e) ind)

/-- Same check for the transient server-error class. -/
def isServerError (e : PyStr) : Bool :=
  serverErrorIndicators.any (fun ind => pyContains (pyLower e) ind)

/-- Outcome of `GeminiRateLimiter.call_with_backoff`. -/
inductive CallResult (α : Type) where
  /-- The wrapped function returned a value. -/
  | ok (v : α)
  /-- `Exception("Rate limit exceeded: Maximum retries reached") from e`. -/
  | rateLimitExceeded (cause : PyStr)
  /-- Some exception was (re-)raised unchanged. -/
  | raised (e : PyStr)
  deriving DecidableEq

/-- The retry loop of `call_with_backoff`: `op a` is the outcome of attempt
`a` (0-based, `.error` modelling a raised exception), `remaining` the number
of attempts left after the current one.  Also returns how many attempts were
made in total. -/
def callWithBackoffAux (op : ℕ → Except PyStr α) :
    ℕ → ℕ → CallResult α × ℕ
  | attempt, 0 =>
      match op attempt with
      | .ok v => (.ok v, attempt + 1)
      | .error e =>
          if isRateLimitError e then (.rateLimitExceeded e, attempt + 1)
          else if isServerError e then (.raised e, attempt + 1)
          else (.raised e, attempt + 1)
  | attempt, r + 1 =>
      match op attempt with
      | .ok v => (.ok v, attempt + 1)
      | .error e =>
          if isRateLimitError e then callWithBackoffAux op (attempt + 1) r
          else if isServerError e then callWithBackoffAux op (attempt + 1) r
          else (.raised e, attempt + 1)

/-- `GeminiRateLimiter.call_with_backoff` (attempts `0..max_retries`). -/
def call_with_backoff (cfg : RateLimitConfig) (op : ℕ → Except PyStr α) :
    CallResult α × ℕ :=
  callWithBackoffAux op 0 cfg.max_retries

/-- `GeminiRateLimiter._calculate_backoff_delay`; `j` is the jitter drawn by
`random.uniform(-0.1 * delay, 0.1 * delay)` (only added when `cfg.jitter`). -/
def calculateBackoffDelay (cfg : RateLimitConfig) (attempt : ℕ)
    (isServerErrorDelay : Bool) (j : ℚ) : ℚ :=
  let delay : ℚ :=
    if isServerErrorDelay then min (cfg.base_delay * 2 ^ attempt) 10
    else min (cfg.base_delay * 2 ^ attempt) cfg.max_delay
  let delay := if cfg.jitter then delay + j else delay
  max delay (1 / 10)

/-- The pre-jitter delay value, for stating jitter-validity side conditions. -/
def rawBackoffDelay (cfg : RateLimitConfig) (attempt : ℕ)
    (isServerErrorDelay : Bool) : ℚ :=
  if isServerErrorDelay then min (cfg.base_delay * 2 ^ attempt) 10
  else min (cfg.base_delay * 2 ^ attempt) cfg.max_delay

/-! ## script_validator.py -/

/-- The messages appended by `ScriptValidator.validate_script`, abstracting
the Japanese format strings to tagged values carrying the interpolated
numbers. -/
inductive ValidationMsg where
  /-- warning 対話行数が多い. -/
  | manyLines (n : ℕ)
  /-- error 対話行数が上限を超過. -/
  | tooManyLines (n : ℕ)
  /-- warning 文字数が多い. -/
  | manyChars (n : ℕ)
  /-- error 文字数が上限を超過. -/
  | tooManyChars (n : ℕ)
  /-- error 対話行が空です. -/
  | emptyScript
  /-- warning 文字数が少ない. -/
  | fewChars (n : ℕ)
  /-- error Hostの発言がありません. -/
  | noHost
  /-- error Guestの発言がありません. -/
  | noGuest
  /-- warning 発言のバランスが偏っています. -/
  | unbalanced (host guest : ℕ)
  /-- warning 極端に長い発言があります. -/
  | longLine (n : ℕ)
  deriving DecidableEq

/-- `ValidationResult`. -/
structure ValidationResult where
  warnings : List ValidationMsg
  errors : List ValidationMsg
  deriving DecidableEq

/-- `ValidationResult.is_valid`. -/
def ValidationResult.is_valid (r : ValidationResult) : Bool :=
  r.errors.length == 0

/-- `ValidationResult.has_warnings`. -/
def ValidationResult.has_warnings (r : ValidationResult) : Bool :=
  0 < r.warnings.length

/-- The dialogue script shape `validate_script` consumes: a `lines` list and
a stored `total_chars` field. -/
structure Script where
  lines : List DialogueLine
  total_chars : ℕ
  deriving DecidableEq

/-- `ScriptValidator` thresholds. -/
def MAX_LINES : ℕ := 25

def MAX_CHARS : ℕ := 2000

def WARN_LINES : ℕ := 20

def WARN_CHARS : ℕ := 1800

/-- `ScriptValidator.validate_script`, with warnings and errors accumulated
in source order. -/
def validate_script (s : Script) : ValidationResult :=
  let w1 : List ValidationMsg :=
    if WARN_LINES < s.lines.length then [.manyLines s.lines.length] else []
  let e1 : List ValidationMsg :=
    if MAX_LINES < s.lines.length then [.tooManyLines s.lines.length] else []
  let w2 : List ValidationMsg :=
    if WARN_CHARS < s.total_chars then [.manyChars s.total_chars] else []
  let e2 : List ValidationMsg :=
    if MAX_CHARS < s.total_chars then [.tooManyChars s.total_chars] else []
  let e3 : List ValidationMsg :=
    if s.lines.length = 0 then [.emptyScript] else []
  let w3 : List ValidationMsg :=
    if s.total_chars < 200 then [.fewChars s.total_chars] else []
  let hostLines := (s.lines.filter (fun l => l.speaker == "Host".toList)).length
  let guestLines := (s.lines.filter (fun l => l.speaker == "Guest".toList)).length
  let e4 : List ValidationMsg :=
    if hostLines = 0 then [.noHost]
    else if guestLines = 0 then [.noGuest]
    else []
  let w4 : List ValidationMsg :=
    if hostLines ≠ 0 ∧ guestLines ≠ 0 ∧
        ((min hostLines guestLines : ℚ) / (max hostLines guestLines : ℚ) < 3 / 10) then
      [.unbalanced hostLines guestLines]
    else []
  let maxLineLength := (s.lines.map (fun l => l.text.length)).foldr max 0
  let w5 : List ValidationMsg :=
    if 300 < maxLineLength then [.longLine maxLineLength] else []
  { warnings := w1 ++ w2 ++ w3 ++ w4 ++ w5, errors := e1 ++ e2 ++ e3 ++ e4 }

/-! ## manifest.py -/

/-- `ChapterStatus`. -/
inductive ChapterStatus where
  | pending
  | script_generated
  | audio_generated
  | completed
  | failed
  | failed_rate_limit
  deriving DecidableEq, BEq, Inhabited

/-- `SectionStatus`. -/
inductive SectionStatus where
  | pending
  | script_generated
  | audio_generated
  | completed
  | failed
  | failed_rate_limit
  deriving DecidableEq, BEq

/-- `ChapterStatus.value` strings. -/
def ChapterStatus.value : ChapterStatus → PyStr
  | .pending => "pending".toList
  | .script_generated => "script_generated".toList
  | .audio_generated => "audio_generated".toList
  | .completed => "completed".toList
  | .failed => "failed".toList
  | .failed_rate_limit => "failed_rate_limit".toList

/-- `SectionStatus.value` strings. -/
def SectionStatus.value : SectionStatus → PyStr
  | .pending => "pending".toList
  | .script_generated => "script_generated".toList
  | .audio_generated => "audio_generated".toList
  | .completed => "completed".toList
  | .failed => "failed".toList
  | .failed_rate_limit => "failed_rate_limit".toList

/-- Iteration order `for status in ChapterStatus`. -/
def ChapterStatus.all : List ChapterStatus :=
  [.pending, .script_generated, .audio_generated, .completed, .failed, .failed_rate_limit]

/-- Iteration order `for status in SectionStatus`. -/
def SectionStatus.all : List SectionStatus :=
  [.pending, .script_generated, .audio_generated, .completed, .failed, .failed_rate_limit]

/-- `ChapterInfo` (timestamps as abstract clock ticks). -/
structure ChapterInfo where
  title : PyStr
  start_page : ℤ
  end_page : ℤ
  status : ChapterStatus := .pending
  script_path : Option PyStr := none
  audio_path : Option PyStr := none
  text_chars : Option ℕ := none
  audio_duration : Option ℚ := none
  error_message : Option PyStr := none
  created_at : Option ℕ := none
  updated_at : Option ℕ := none
  deriving DecidableEq, Inhabited

/-- `SectionInfo`. -/
structure SectionInfo where
  title : PyStr
  section_number : PyStr
  start_page : ℤ
  end_page : ℤ
  parent_chapter : PyStr := []
  status : SectionStatus := .pending
  script_path : Option PyStr := none
  audio_path : Option PyStr := none
  text_chars : Option ℕ := none
  audio_duration : Option ℚ := none
  error_message : Option PyStr := none
  created_at : Option ℕ := none
  updated_at : Option ℕ := none
  deriving DecidableEq

/-- `PodcastManifest`. -/
structure PodcastManifest where
  pdf_path : PyStr
  output_dir : PyStr
  model : PyStr
  voice : PyStr
  max_concurrency : ℕ
  skip_existing : Bool
  created_at : ℕ
  updated_at : ℕ
  chapters : List ChapterInfo
  sections : List SectionInfo := []
  episode_path : Option PyStr := none
  total_duration : Option ℚ := none
  bgm_path : Option PyStr := none
  use_sections : Bool := false
  deriving DecidableEq

/-- `ManifestManager`: the in-memory manifest plus the persisted file
contents (what `save()` last wrote). -/
structure ManifestManager where
  manifest : Option PodcastManifest
  saved : Option PodcastManifest
  deriving DecidableEq

/-- `ManifestManager.save` at clock tick `now` (stamps the manifest-level
`updated_at`, then replaces the on-disk representation). -/
def ManifestManager.save (mgr : ManifestManager) (now : ℕ) : ManifestManager :=
  match mgr.manifest with
  | none => mgr
  | some m =>
      let m' := { m with updated_at := now }
      { manifest := some m', saved := some m' }

/-- The optional keyword arguments of `ManifestManager.update_chapter`
(`none` = argument not supplied). -/
structure ChapterUpdate where
  status : Option ChapterStatus := none
  script_path : Option PyStr := none
  audio_path : Option PyStr := none
  text_chars : Option ℕ := none
  audio_duration : Option ℚ := none
  error_message : Option PyStr := none
  deriving DecidableEq

/-- The per-entry mutation of `update_chapter`: each supplied field
overwrites, each unsupplied field keeps the old value, `updated_at` is
stamped. -/
def applyChapterUpdate (u : ChapterUpdate) (now : ℕ) (ch : ChapterInfo) : ChapterInfo :=
  { ch with
    status := u.status.getD ch.status
    script_path := match u.script_path with | some p => some p | none => ch.script_path
    audio_path := match u.audio_path with | some p => some p | none => ch.audio_path
    text_chars := match u.text_chars with | some n => some n | none => ch.text_chars
    audio_duration := match u.audio_duration with | some d => some d | none => ch.audio_duration
    error_message := match u.error_message with | some e => some e | none => ch.error_message
    updated_at := some now }

/-- The `for chapter in self._manifest.chapters` search loop of
`update_chapter`: updates the first entry whose title matches, or returns
`none` when no entry matches. -/
def updateChapters (u : ChapterUpdate) (now : ℕ) (title : PyStr) :
    List ChapterInfo → Option (List ChapterInfo)
  | [] => none
  | ch :: rest =>
      if ch.title == title then some (applyChapterUpdate u now ch :: rest)
      else (updateChapters u now title rest).map (fun cs => ch :: cs)

/-- `ManifestManager.update_chapter`: returns the boolean result and the new
manager state (the manifest is saved before returning `true`). -/
def ManifestManager.update_chapter (mgr : ManifestManager) (title : PyStr)
    (u : ChapterUpdate) (now : ℕ) : Bool × ManifestManager :=
  match mgr.manifest with
  | none => (false, mgr)
  | some m =>
      match updateChapters u now title m.chapters with
      | none => (false, mgr)
      | some chs =>
          (true, ManifestManager.save { mgr with manifest := some { m with chapters := chs } } now)

/-- `ManifestManager.get_chapter`. -/
def ManifestManager.get_chapter (mgr : ManifestManager) (title : PyStr) :
    Option ChapterInfo :=
  mgr.manifest.bind (fun m => m.chapters.find? (fun ch => ch.title == title))

/-- `ManifestManager.get_chapters_by_status`. -/
def ManifestManager.get_chapters_by_status (mgr : ManifestManager)
    (s : ChapterStatus) : List ChapterInfo :=
  match mgr.manifest with
  | none => []
  | some m => m.chapters.filter (fun ch => ch.status == s)

/-- `ManifestManager.get_sections_by_status`. -/
def ManifestManager.get_sections_by_status (mgr : ManifestManager)
    (s : SectionStatus) : List SectionInfo :=
  match mgr.manifest with
  | none => []
  | some m => m.sections.filter (fun sec => sec.status == s)

/-- Round half to even (Python `round` tie behavior), on rationals. -/
def roundHalfEven (q : ℚ) : ℤ :=
  let f := ⌊q⌋
  let r := q - f
  if r < 1 / 2 then f
  else if 1 / 2 < r then f + 1
  else if 2 ∣ f then f else f + 1

/-- Python `round(x, 1)` modelled exactly on rationals. -/
def pyRound1 (q : ℚ) : ℚ :=
  (roundHalfEven (q * 10) : ℚ) / 10

/-- The dictionary returned by `get_progress_summary`, as a structure.  The
`sections` and `chapters` branches use differently named keys
(`total_sections` vs `total_chapters`, ...) distinguished here by `typ`;
`episode_ready` is `none` when the key is absent (sections branch). -/
structure ProgressSummary where
  typ : PyStr
  total : ℕ
  completed : ℕ
  failed : ℕ
  progress_percent : ℚ
  status_counts : List (PyStr × ℕ)
  episode_ready : Option Bool
  use_sections : Bool
  deriving DecidableEq

/-- `ManifestManager.get_progress_summary` (`none` models the empty dict
returned when no manifest is loaded). -/
def ManifestManager.get_progress_summary (mgr : ManifestManager) :
    Option ProgressSummary :=
  match mgr.manifest with
  | none => none
  | some m =>
      if m.use_sections ∧ ¬m.sections.isEmpty then
        let status_counts := SectionStatus.all.map
          (fun s => (s.value, (mgr.get_sections_by_status s).length))
        let total_items := m.sections.length
        let completed_items := (status_counts.lookup SectionStatus.completed.value).getD 0
        let failed_items := (status_counts.lookup SectionStatus.failed.value).getD 0 +
          (status_counts.lookup SectionStatus.failed_rate_limit.value).getD 0
        let progress_percent : ℚ :=
          if 0 < total_items then (completed_items : ℚ) / (total_items : ℚ) * 100 else 0
        some { typ := "sections".toList
               total := total_items
               completed := completed_items
               failed := failed_items
               progress_percent := pyRound1 progress_percent
               status_counts := status_counts
               episode_ready := none
               use_sections := true }
      else
        let status_counts := ChapterStatus.all.map
          (fun s => (s.value, (mgr.get_chapters_by_status s).length))
        let total_items := m.chapters.length
        let completed_items := (status_counts.lookup ChapterStatus.completed.value).getD 0
        let failed_items := (status_counts.lookup ChapterStatus.failed.value).getD 0 +
          (status_counts.lookup ChapterStatus.failed_rate_limit.value).getD 0
        let progress_percent : ℚ :=
          if 0 < total_items then (completed_items : ℚ) / (total_items : ℚ) * 100 else 0
        some { typ := "chapters".toList
               total := total_items
               completed := completed_items
               failed := failed_items
               progress_percent := pyRound1 progress_percent
               status_counts := status_counts
               episode_ready := some m.episode_path.isSome
               use_sections := false }

/-! ## tts_client.py / __main__.py audio stage -/

/-- The `process_chapter` inner coroutine of
`TTSClient.generate_chapter_audios_async`: `synth idx title content` is the
outcome of the external synthesis (`.ok` carrying the produced audio path,
`.error` a raised exception).  Every exception is caught and turned into
`None`; a successful synthesis yields the output path. -/
def processChapter (synth : ℕ → PyStr → PyStr → Except PyStr PyStr)
    (idx : ℕ) (title content : PyStr) : Option PyStr :=
  match synth idx title content with
  | .ok path => some path
  | .error _ => none

/-- The sequential item loop of `generate_chapter_audios_async` followed by
the success-collection loop: only `Path` results are kept, keyed by title, in
submission order (`enumerate(scripts.items(), 1)`). -/
def genChapterAudiosAux (synth : ℕ → PyStr → PyStr → Except PyStr PyStr) :
    ℕ → List (PyStr × PyStr) → List (PyStr × PyStr)
  | _, [] => []
  | idx, (title, content) :: rest =>
      match processChapter synth idx title content with
      | some path => (title, path) :: genChapterAudiosAux synth (idx + 1) rest
      | none => genChapterAudiosAux synth (idx + 1) rest

/-- `TTSClient.generate_chapter_audios_async` (returns the `audio_paths`
mapping of the items that succeeded). -/
def generate_chapter_audios_async (synth : ℕ → PyStr → PyStr → Except PyStr PyStr)
    (scripts : List (PyStr × PyStr)) : List (PyStr × PyStr) :=
  genChapterAudiosAux synth 1 scripts

/-- `PodcastGenerator._generate_audio`: runs the TTS stage over all scripts,
then records `AUDIO_GENERATED` plus the audio path in the manifest for each
item that succeeded (and only for those). -/
def generateAudioStage (synth : ℕ → PyStr → PyStr → Except PyStr PyStr)
    (mgr : ManifestManager) (scripts : List (PyStr × PyStr)) (now : ℕ) :
    List (PyStr × PyStr) × ManifestManager :=
  let audio_paths := generate_chapter_audios_async synth scripts
  let mgr' := audio_paths.foldl
    (fun acc tp =>
      (acc.update_chapter tp.1
        { status := some .audio_generated, audio_path := some tp.2 } now).2)
    mgr
  (audio_paths, mgr')

/-! ## Helper lemmas -/

theorem splitLoop_join (ls : List DialogueLine) :
    ∀ (chunks : List (List DialogueLine)) (cur : List DialogueLine) (c : ℕ),
      (splitLoop ls chunks cur c).join = chunks.join ++ (cur ++ ls) := by
  induction ls with
  | nil =>
      intro chunks cur c
      simp only [splitLoop]
      split
      · rename_i h
        rw [List.isEmpty_iff] at h
        simp [h]
      · simp
  | cons line rest ih =>
      intro chunks cur c
      simp only [splitLoop]
      split
      · split
        · rw [ih]
          have htd : cur.take (findNaturalSplitPoint cur) ++ cur.drop (findNaturalSplitPoint cur) = cur :=
            List.take_append_drop _ _
          split
          · rename_i hemp
            rw [List.isEmpty_iff] at hemp
            rw [hemp] at htd
            simp only [List.nil_append] at htd
            rw [htd]
            simp
          · have h2 : List.take (findNaturalSplitPoint cur) cur ++
                (List.drop (findNaturalSplitPoint cur) cur ++ line :: rest) =
                cur ++ line :: rest := by
              rw [← List.append_assoc, htd]
            simp only [List.join_append, List.join_cons, List.join_nil, List.append_nil,
              List.append_assoc, List.singleton_append, h2]
        · rw [ih]
          simp [List.join_append]
      · rw [ih]
        simp

theorem processChunksSeqAux_length (synth : ℕ → List DialogueLine → Except PyStr (List ℕ)) :
    ∀ (chunks : List (List DialogueLine)) (k : ℕ),
      (processChunksSeqAux synth k chunks).length = chunks.length := by
  intro chunks
  induction chunks with
  | nil => intro k; rfl
  | cons c rest ih => intro k; simp [processChunksSeqAux, ih]

theorem processChunksSeqAux_getD (synth : ℕ → List DialogueLine → Except PyStr (List ℕ)) :
    ∀ (chunks : List (List DialogueLine)) (k i : ℕ), i < chunks.length →
      (processChunksSeqAux synth k chunks).getD i [] =
        (match synth (k + i) (chunks.getD i []) with
         | .ok audioData => audioData
         | .error _ => createSilenceChunk 1) := by
  intro chunks
  induction chunks with
  | nil => intro k i h; simp at h
  | cons c rest ih =>
      intro k i h
      cases i with
      | zero => simp [processChunksSeqAux]
      | succ j =>
          have hj : j < rest.length := by simpa using h
          have := ih (k + 1) j hj
          simpa [processChunksSeqAux, Nat.add_assoc, Nat.add_comm 1 j] using this

theorem mem_if_singleton {α} {c : Prop} [Decidable c] {a b : α} :
    (a ∈ if c then [b] else []) ↔ c ∧ a = b := by
  by_cases h : c <;> simp [h]

theorem mem_if_if_singleton {α} {c1 c2 : Prop} [Decidable c1] [Decidable c2] {a x y : α} :
    (a ∈ if c1 then [x] else if c2 then [y] else []) ↔
      (c1 ∧ a = x) ∨ (¬c1 ∧ c2 ∧ a = y) := by
  by_cases h1 : c1 <;> by_cases h2 : c2 <;> simp [h1, h2]

theorem length_filter_mono {α : Type} (p q : α → Bool) (h : ∀ a, p a = true → q a = true) :
    ∀ l : List α, (l.filter p).length ≤ (l.filter q).length := by
  intro l
  induction l with
  | nil => simp
  | cons a t ih =>
      rcases hp : p a with _ | _
      · rcases hq : q a with _ | _
        · simpa [List.filter_cons, hp, hq] using ih
        · simp only [List.filter_cons, hp, hq, if_true, if_false, cond_true, cond_false]
          simp only [List.length_cons]
          exact ih.trans (Nat.le_succ _)
      · have hq : q a = true := h a hp
        simp only [List.filter_cons, hp, hq, cond_true]
        simpa using ih

theorem length_filter_lt_of_mem {α : Type} {p : α → Bool} :
    ∀ {l : List α} {a : α}, a ∈ l → p a = false → (l.filter p).length < l.length := by
  intro l
  induction l with
  | nil => intro a ha _; simp at ha
  | cons b t ih =>
      intro a ha hpa
      rcases List.mem_cons.mp ha with rfl | ha
      · simp only [List.filter_cons, hpa, cond_false, List.length_cons]
        exact Nat.lt_succ_of_le (List.length_filter_le p t)
      · rcases hpb : p b with _ | _
        · simp only [List.filter_cons, hpb, cond_false, List.length_cons]
          exact (ih ha hpa).trans (Nat.lt_succ_self _)
        · simp only [List.filter_cons, hpb, cond_true, List.length_cons]
          exact Nat.succ_lt_succ (ih ha hpa)

theorem foldl_min_le_init : ∀ (xs : List ℚ) (x : ℚ), xs.foldl min x ≤ x := by
  intro xs
  induction xs with
  | nil => intro x; exact le_refl x
  | cons z t ih => intro x; exact le_trans (ih (min x z)) (min_le_left x z)

theorem foldl_min_le_mem : ∀ (xs : List ℚ) (x y : ℚ), y ∈ xs → xs.foldl min x ≤ y := by
  intro xs
  induction xs with
  | nil => intro x y h; simp at h
  | cons z t ih =>
      intro x y h
      rcases List.mem_cons.mp h with rfl | h
      · exact le_trans (foldl_min_le_init t (min x y)) (min_le_right x y)
      · exact ih (min x z) y h

theorem foldl_min_mem : ∀ (xs : List ℚ) (x : ℚ), xs.foldl min x = x ∨ xs.foldl min x ∈ xs := by
  intro xs
  induction xs with
  | nil => intro x; left; rfl
  | cons z t ih =>
      intro x
      simp only [List.foldl_cons]
      rcases ih (min x z) with h | h
      · rcases min_choice x z with hc | hc
        · left; rw [h, hc]
        · right; rw [h, hc]; exact List.mem_cons_self _ _
      · right; exact List.mem_cons_of_mem _ h

theorem pyMin_spec (x : ℚ) (xs : List ℚ) :
    ∃ m, pyMin (x :: xs) = some m ∧ m ∈ x :: xs ∧ ∀ y ∈ x :: xs, m ≤ y := by
  refine ⟨xs.foldl min x, rfl, ?_, ?_⟩
  · rcases foldl_min_mem xs x with h | h
    · rw [h]; exact List.mem_cons_self _ _
    · exact List.mem_cons_of_mem _ h
  · intro y hy
    rcases List.mem_cons.mp hy with rfl | hy
    · exact foldl_min_le_init xs y
    · exact foldl_min_le_mem xs x y hy

theorem windowCount_mono (ts : List ℚ) {t t' : ℚ} (h : t ≤ t') :
    windowCount ts t' ≤ windowCount ts t := by
  apply length_filter_mono
  intro a ha
  simp only [decide_eq_true_eq] at ha ⊢
  linarith

/-- Invariant carried between `acquire()` calls: all recorded instants are in
the past, and at most `rpm` of them are inside the trailing window. -/
def AcquireInv (rpm : ℕ) (st : List ℚ × ℚ) : Prop :=
  (∀ x ∈ st.1, x ≤ st.2) ∧ windowCount st.1 st.2 ≤ rpm

theorem acquire_step {rpm : ℕ} (hrpm : 1 ≤ rpm) {ts : List ℚ} {now now1 δ : ℚ}
    (hinv : AcquireInv rpm (ts, now)) (hle : now ≤ now1) (hδ : 0 ≤ δ) :
    AcquireInv rpm (acquire rpm ts now1 δ) := by
  obtain ⟨hmem, hcnt⟩ := hinv
  have hwin1 : (pruneWindow ts now1).length ≤ rpm :=
    le_trans (windowCount_mono ts hle) hcnt
  have hprunedmem : ∀ x ∈ pruneWindow ts now1, x ≤ now1 := by
    intro x hx
    exact le_trans (hmem x (List.mem_of_mem_filter hx)) hle
  have hprunedwin : ∀ x ∈ pruneWindow ts now1, now1 - 60 < x := by
    intro x hx
    have := List.of_mem_filter hx
    simpa using this
  simp only [acquire]
  by_cases hfull : rpm ≤ (pruneWindow ts now1).length
  · rw [if_pos hfull]
    rcases hpr : pruneWindow ts now1 with _ | ⟨x, xs⟩
    · exfalso
      rw [hpr] at hfull
      simp at hfull
      omega
    · obtain ⟨m, hm_eq, hm_mem, hm_le⟩ := pyMin_spec x xs
      rw [hm_eq]
      have hm_mem' : m ∈ pruneWindow ts now1 := by rw [hpr]; exact hm_mem
      have hmwin : now1 - 60 < m := hprunedwin m hm_mem'
      have hwait : (0 : ℚ) < 60 - (now1 - m) := by linarith
      show AcquireInv rpm
        (x :: xs ++ [(if 0 < 60 - (now1 - m) then now1 + (60 - (now1 - m)) else now1) + δ],
          (if 0 < 60 - (now1 - m) then now1 + (60 - (now1 - m)) else now1) + δ)
      rw [if_pos hwait]
      constructor
      · intro y hy
        rcases List.mem_append.mp hy with hy | hy
        · have h3 : y ≤ now1 := by
            rw [← hpr] at hy
            exact hprunedmem y hy
          show y ≤ now1 + (60 - (now1 - m)) + δ
          linarith
        · simp only [List.mem_singleton] at hy
          exact le_of_eq hy
      · show ((x :: xs ++ [now1 + (60 - (now1 - m)) + δ]).filter
            (fun t => now1 + (60 - (now1 - m)) + δ - 60 < t)).length ≤ rpm
        rw [List.filter_append]
        have hp2 : now1 + (60 - (now1 - m)) + δ - 60 < now1 + (60 - (now1 - m)) + δ := by
          linarith
        have h1 : ([now1 + (60 - (now1 - m)) + δ].filter
            (fun t => now1 + (60 - (now1 - m)) + δ - 60 < t)) =
            [now1 + (60 - (now1 - m)) + δ] := by
          simp [hp2]
        have hfiltercount :
            ((x :: xs).filter
              (fun t => decide (now1 + (60 - (now1 - m)) + δ - 60 < t))).length <
              (x :: xs).length := by
          apply length_filter_lt_of_mem hm_mem
          simp only [decide_eq_false_iff_not, not_lt]
          linarith
        have hlen : (x :: xs).length ≤ rpm := by rw [← hpr]; exact hwin1
        rw [h1, List.length_append]
        simp only [List.length_cons, List.length_nil, List.length_singleton] at *
        omega
  · rw [if_neg hfull]
    constructor
    · intro y hy
      rcases List.mem_append.mp hy with hy | hy
      · have h3 : y ≤ now1 := hprunedmem y hy
        show y ≤ now1 + δ
        linarith
      · simp only [List.mem_singleton] at hy
        exact le_of_eq hy
    · show ((pruneWindow ts now1 ++ [now1 + δ]).filter
          (fun t => now1 + δ - 60 < t)).length ≤ rpm
      rw [List.filter_append]
      have hp2 : now1 + δ - 60 < now1 + δ := by linarith
      have h1 : ([now1 + δ].filter (fun t => now1 + δ - 60 < t)) = [now1 + δ] := by
        simp [hp2]
      have hle2 :
          ((pruneWindow ts now1).filter (fun t => decide (now1 + δ - 60 < t))).length ≤
            (pruneWindow ts now1).length :=
        List.length_filter_le _ _
      rw [h1, List.length_append]
      simp only [List.length_singleton] at *
      omega

theorem runAcquire_inv_aux (rpm : ℕ) (hrpm : 1 ≤ rpm) :
    ∀ (calls : List (ℚ × ℚ)) (st : List ℚ × ℚ),
      AcquireInv rpm st → (∀ c ∈ calls, 0 ≤ c.1 ∧ 0 ≤ c.2) →
      AcquireInv rpm (calls.foldl (fun s c => acquire rpm s.1 (s.2 + c.1) c.2) st) := by
  intro calls
  induction calls with
  | nil => intro st h _; simpa using h
  | cons c rest ih =>
      intro st hst hc
      simp only [List.foldl_cons]
      apply ih
      · have hcc := hc c (List.mem_cons_self _ _)
        exact acquire_step hrpm hst (by linarith [hcc.1]) hcc.2
      · intro d hd
        exact hc d (List.mem_cons_of_mem _ hd)

/-! ## Claim theorems -/

/-- C10: for every input list of dialogue lines, the in-order concatenation
of the chunks returned by `split_dialogue_for_tts` equals the original input
list — every line appears exactly once, in its original order, and no line is
dropped or duplicated. -/
theorem split_dialogue_for_tts_join (dialogue_lines : List DialogueLine) :
    (split_dialogue_for_tts dialogue_lines).join = dialogue_lines := by
  unfold split_dialogue_for_tts
  split
  · simp
  · simpa using splitLoop_join dialogue_lines [] [] 0

/-- C8: `process_chunks_sequentially` returns exactly one audio entry per
input chunk, in order: the synthesized audio when the chunk's TTS call
succeeds, and the fixed one-second silence chunk when it raises — so no
single failing chunk makes the call raise. -/
theorem process_chunks_sequentially_isolates
    (synth : ℕ → List DialogueLine → Except PyStr (List ℕ))
    (chunks : List (List DialogueLine)) :
    (process_chunks_sequentially synth chunks).length = chunks.length ∧
    ∀ i, i < chunks.length →
      (process_chunks_sequentially synth chunks).getD i [] =
        (match synth (i + 1) (chunks.getD i []) with
         | .ok audioData => audioData
         | .error _ => createSilenceChunk 1) := by
  constructor
  · exact processChunksSeqAux_length synth chunks 1
  · intro i hi
    have := processChunksSeqAux_getD synth chunks 1 i hi
    simpa [Nat.add_comm 1 i] using this

/-- A script on which every chunk TTS call succeeds, for the C8 witness. -/
def synthAllOk : ℕ → List DialogueLine → Except PyStr (List ℕ) :=
  fun i _ => .ok [i]

/-- Witness for C8 at a concrete two-chunk input. -/
theorem process_chunks_sequentially_isolates_witness :
    (process_chunks_sequentially synthAllOk [[], [⟨"Host".toList, ['a']⟩]]).getD 1 [] =
      (match synthAllOk 2 ([[], [⟨"Host".toList, ['a']⟩]].getD 1 []) with
       | .ok audioData => audioData
       | .error _ => createSilenceChunk 1) :=
  (process_chunks_sequentially_isolates synthAllOk [[], [⟨"Host".toList, ['a']⟩]]).2 1
    (by decide)

/-- C9: `validate_script` reports a character-count error above the hard
maximum, only a character-count warning strictly between the soft threshold
and the hard maximum, and an error for an empty script; `is_valid` holds iff
the error list is empty, and the warnings list never influences `is_valid`. -/
theorem validate_script_spec (s : Script) :
    (MAX_CHARS < s.total_chars →
      ValidationMsg.tooManyChars s.total_chars ∈ (validate_script s).errors) ∧
    (WARN_CHARS < s.total_chars → s.total_chars ≤ MAX_CHARS →
      ValidationMsg.manyChars s.total_chars ∈ (validate_script s).warnings ∧
      ∀ n, ValidationMsg.tooManyChars n ∉ (validate_script s).errors) ∧
    (s.lines = [] → ValidationMsg.emptyScript ∈ (validate_script s).errors) ∧
    ((validate_script s).is_valid = true ↔ (validate_script s).errors = []) ∧
    (∀ w w' e, (ValidationResult.mk w e).is_valid = (ValidationResult.mk w' e).is_valid) := by
  refine ⟨?_, ?_, ?_, ?_, ?_⟩
  · intro h
    simp [validate_script, List.mem_append, h]
  · intro h1 h2
    constructor
    · simp [validate_script, List.mem_append, h1]
    · intro n
      have hnot : ¬ (MAX_CHARS < s.total_chars) := not_lt.mpr h2
      simp [validate_script, List.mem_append, mem_if_singleton, mem_if_if_singleton, hnot]
  · intro h
    simp [validate_script, List.mem_append, h]
  · simp [ValidationResult.is_valid, List.length_eq_zero]
  · intro w w' e
    rfl

/-- Witness for C9: a 1900-character script gets the soft-threshold warning
and no character-count error. -/
theorem validate_script_spec_witness :
    ValidationMsg.manyChars 1900 ∈
      (validate_script ⟨[⟨"Host".toList, ['x']⟩], 1900⟩).warnings :=
  ((validate_script_spec ⟨[⟨"Host".toList, ['x']⟩], 1900⟩).2.1 (by decide) (by decide)).1

/-- A 600-character speaker-A line ending in sentence-final punctuation. -/
def exLineA : DialogueLine := ⟨"A".toList, List.replicate 599 'x' ++ ['。']⟩

/-- A 600-character speaker-B line. -/
def exLineB : DialogueLine := ⟨"B".toList, List.replicate 600 'y'⟩

/-- A 700-character speaker-B line. -/
def exLineC : DialogueLine := ⟨"B".toList, List.replicate 700 'z'⟩

set_option maxRecDepth 100000 in
/-- C3 (failing-input evaluation): on the three lines above,
`split_dialogue_for_tts` closes the first chunk at the natural boundary after
`exLineA` and carries the remainder plus the new line into the next chunk
without re-checking the size limits, emitting the chunk
`[exLineB, exLineC]` with 1300 characters — above `MAX_CHUNK_CHARS = 1200` —
although neither of its two lines alone exceeds the limits, contradicting the
claimed per-chunk size bound. -/
theorem split_dialogue_for_tts_size_bound_violation :
    split_dialogue_for_tts [exLineA, exLineB, exLineC] = [[exLineA], [exLineB, exLineC]] ∧
    totalChars [exLineB, exLineC] = 1300 ∧
    MAX_CHUNK_CHARS < totalChars [exLineB, exLineC] ∧
    [exLineB, exLineC].length ≤ MAX_CHUNK_LINES ∧
    exLineB.text.length ≤ MAX_CHUNK_CHARS ∧
    exLineC.text.length ≤ MAX_CHUNK_CHARS := by
  decide

/-- C1: for every sequence of `acquire()` calls on a rate limiter configured
with a positive `rpm_limit` (each call entered after the previous returned,
with nonnegative gaps and recording delays), at no evaluation instant — here,
the instant each call records its request — do more than `rpm_limit` recorded
timestamps fall within the trailing 60-second window. -/
theorem acquire_window_invariant (rpm : ℕ) (calls : List (ℚ × ℚ)) (k : ℕ)
    (hrpm : 1 ≤ rpm) (hcalls : ∀ c ∈ calls, 0 ≤ c.1 ∧ 0 ≤ c.2) :
    windowCount (runAcquire rpm (calls.take k)).1 (runAcquire rpm (calls.take k)).2 ≤ rpm := by
  have hinv0 : AcquireInv rpm (([] : List ℚ), (0 : ℚ)) := by
    constructor
    · intro x hx
      simp at hx
    · exact Nat.zero_le rpm
  have hsub : ∀ c ∈ calls.take k, 0 ≤ c.1 ∧ 0 ≤ c.2 := by
    intro c hc
    exact hcalls c (List.take_subset k calls hc)
  exact (runAcquire_inv_aux rpm hrpm (calls.take k) ([], 0) hinv0 hsub).2

/-- Witness for C1: three back-to-back calls at `rpm_limit = 2`. -/
theorem acquire_window_invariant_witness :
    windowCount (runAcquire 2 ([((0 : ℚ), (0 : ℚ)), (0, 0), (0, 0)].take 3)).1
      (runAcquire 2 ([((0 : ℚ), (0 : ℚ)), (0, 0), (0, 0)].take 3)).2 ≤ 2 :=
  acquire_window_invariant 2 [((0 : ℚ), (0 : ℚ)), (0, 0), (0, 0)] 3 (by decide) (by decide)

theorem cwbAux_zero_count {α : Type} (op : ℕ → Except PyStr α) (a : ℕ) :
    (callWithBackoffAux op a 0).2 = a + 1 := by
  simp only [callWithBackoffAux]
  cases hop : op a with
  | ok v => rfl
  | error e =>
      dsimp only
      split_ifs <;> rfl

theorem cwbAux_other {α : Type} (op : ℕ → Except PyStr α) (a r : ℕ) (e : PyStr)
    (hop : op a = .error e) (h1 : isRateLimitError e = false) (h2 : isServerError e = false) :
    callWithBackoffAux op a r = (.raised e, a + 1) := by
  cases r <;> simp [callWithBackoffAux, hop, h1, h2]

theorem cwbAux_rl {α : Type} (op : ℕ → Except PyStr α) :
    ∀ (r a : ℕ),
      (∀ i, a ≤ i → i ≤ a + r → ∃ e, op i = .error e ∧ isRateLimitError e = true) →
      ∃ e, op (a + r) = .error e ∧
        callWithBackoffAux op a r = (.rateLimitExceeded e, a + r + 1) := by
  intro r
  induction r with
  | zero =>
      intro a h
      obtain ⟨e, hop, hrl⟩ := h a le_rfl (by omega)
      exact ⟨e, by simpa using hop, by simp [callWithBackoffAux, hop, hrl]⟩
  | succ r ih =>
      intro a h
      obtain ⟨e, hop, hrl⟩ := h a le_rfl (by omega)
      have step : callWithBackoffAux op a (r + 1) = callWithBackoffAux op (a + 1) r := by
        simp [callWithBackoffAux, hop, hrl]
      obtain ⟨e2, hop2, hres⟩ := ih (a + 1) (fun i h1 h2 => h i (by omega) (by omega))
      have harith : a + 1 + r = a + (r + 1) := by omega
      rw [harith] at hop2 hres
      exact ⟨e2, hop2, by rw [step]; exact hres⟩

theorem cwbAux_srv {α : Type} (op : ℕ → Except PyStr α) :
    ∀ (r a : ℕ),
      (∀ i, a ≤ i → i ≤ a + r →
        ∃ e, op i = .error e ∧ isRateLimitError e = false ∧ isServerError e = true) →
      ∃ e, op (a + r) = .error e ∧
        callWithBackoffAux op a r = (.raised e, a + r + 1) := by
  intro r
  induction r with
  | zero =>
      intro a h
      obtain ⟨e, hop, hrl, hsv⟩ := h a le_rfl (by omega)
      exact ⟨e, by simpa using hop, by simp [callWithBackoffAux, hop, hrl, hsv]⟩
  | succ r ih =>
      intro a h
      obtain ⟨e, hop, hrl, hsv⟩ := h a le_rfl (by omega)
      have step : callWithBackoffAux op a (r + 1) = callWithBackoffAux op (a + 1) r := by
        simp [callWithBackoffAux, hop, hrl, hsv]
      obtain ⟨e2, hop2, hres⟩ := ih (a + 1) (fun i h1 h2 => h i (by omega) (by omega))
      have harith : a + 1 + r = a + (r + 1) := by omega
      rw [harith] at hop2 hres
      exact ⟨e2, hop2, by rw [step]; exact hres⟩

theorem cwbAux_retries_only {α : Type} (op : ℕ → Except PyStr α) :
    ∀ (r a b : ℕ), a ≤ b → b + 1 < (callWithBackoffAux op a r).2 →
      ∃ e, op b = .error e ∧ (isRateLimitError e = true ∨ isServerError e = true) := by
  intro r
  induction r with
  | zero =>
      intro a b hab hlt
      rw [cwbAux_zero_count] at hlt
      omega
  | succ r ih =>
      intro a b hab hlt
      cases hop : op a with
      | ok v =>
          have hc : (callWithBackoffAux op a (r + 1)).2 = a + 1 := by
            simp [callWithBackoffAux, hop]
          rw [hc] at hlt
          omega
      | error e =>
          by_cases hrl : isRateLimitError e = true
          · have step : callWithBackoffAux op a (r + 1) = callWithBackoffAux op (a + 1) r := by
              simp [callWithBackoffAux, hop, hrl]
            rcases eq_or_lt_of_le hab with rfl | hab2
            · exact ⟨e, hop, Or.inl hrl⟩
            · exact ih (a + 1) b (by omega) (step ▸ hlt)
          · have hrl' : isRateLimitError e = false := by simpa using hrl
            by_cases hsv : isServerError e = true
            · have step : callWithBackoffAux op a (r + 1) = callWithBackoffAux op (a + 1) r := by
                simp [callWithBackoffAux, hop, hrl', hsv]
              rcases eq_or_lt_of_le hab with rfl | hab2
              · exact ⟨e, hop, Or.inr hsv⟩
              · exact ih (a + 1) b (by omega) (step ▸ hlt)
            · have hsv' : isServerError e = false := by simpa using hsv
              rw [cwbAux_other op a (r + 1) e hop hrl' hsv'] at hlt
              simp at hlt
              omega

/-- C2: `call_with_backoff` propagates a failure matching neither error class
immediately (one attempt, no retry); when every attempt fails with a
rate-limit-classified error it exhausts all `max_retries + 1` attempts and
fails with the distinct rate-limit-exceeded error; when every attempt fails
with a server-error-classified error it exhausts all attempts and re-raises
the last original error; and every retried attempt (every attempt except the
last one made) followed a failure classified rate-limit or server-error. -/
theorem call_with_backoff_classification {α : Type} (cfg : RateLimitConfig)
    (op : ℕ → Except PyStr α) :
    (∀ e, op 0 = .error e → isRateLimitError e = false → isServerError e = false →
      call_with_backoff cfg op = (.raised e, 1)) ∧
    ((∀ i, i ≤ cfg.max_retries → ∃ e, op i = .error e ∧ isRateLimitError e = true) →
      ∃ e, op cfg.max_retries = .error e ∧
        call_with_backoff cfg op = (.rateLimitExceeded e, cfg.max_retries + 1)) ∧
    ((∀ i, i ≤ cfg.max_retries →
        ∃ e, op i = .error e ∧ isRateLimitError e = false ∧ isServerError e = true) →
      ∃ e, op cfg.max_retries = .error e ∧
        call_with_backoff cfg op = (.raised e, cfg.max_retries + 1)) ∧
    (∀ b, b + 1 < (call_with_backoff cfg op).2 →
      ∃ e, op b = .error e ∧ (isRateLimitError e = true ∨ isServerError e = true)) := by
  refine ⟨?_, ?_, ?_, ?_⟩
  · intro e hop h1 h2
    exact cwbAux_other op 0 cfg.max_retries e hop h1 h2
  · intro h
    have := cwbAux_rl op cfg.max_retries 0 (fun i h1 h2 => h i (by omega))
    simpa using this
  · intro h
    have := cwbAux_srv op cfg.max_retries 0 (fun i h1 h2 => h i (by omega))
    simpa using this
  · intro b hb
    exact cwbAux_retries_only op cfg.max_retries 0 b (Nat.zero_le b) hb

/-- A wrapped operation that always raises a non-retryable error. -/
def opBoom : ℕ → Except PyStr ℕ := fun _ => .error "boom".toList

/-- Witness for C2: the non-retryable error propagates after exactly one
attempt. -/
theorem call_with_backoff_classification_witness :
    call_with_backoff {} opBoom = (.raised "boom".toList, 1) :=
  (call_with_backoff_classification {} opBoom).1 "boom".toList rfl (by decide) (by decide)

/-- C7 counterexample: with the default configuration (`jitter = true`,
`base_delay = 2`, `max_delay = 60`), valid ±10% jitter draws make the
computed rate-limit delay decrease between attempts 5 and 6 (66 s then 54 s),
and make the server-error delay at attempt 0 exceed the rate-limit delay at
the same attempt (2.2 s vs 1.8 s), refuting both halves of the claim about
the computed delays. -/
theorem backoff_delay_monotone_counterexample :
    |(6 : ℚ)| ≤ rawBackoffDelay {} 5 false * (1 / 10) ∧
    |(-6 : ℚ)| ≤ rawBackoffDelay {} 6 false * (1 / 10) ∧
    calculateBackoffDelay {} 6 false (-6) < calculateBackoffDelay {} 5 false 6 ∧
    |(1 / 5 : ℚ)| ≤ rawBackoffDelay {} 0 true * (1 / 10) ∧
    |(-(1 / 5) : ℚ)| ≤ rawBackoffDelay {} 0 false * (1 / 10) ∧
    calculateBackoffDelay {} 0 false (-(1 / 5)) < calculateBackoffDelay {} 0 true (1 / 5) := by
  refine ⟨?_, ?_, ?_, ?_, ?_, ?_⟩ <;>
    norm_num [rawBackoffDelay, calculateBackoffDelay, abs_of_nonneg]

/-- C7 amended: the pre-jitter backoff delay (equivalently, the computed
delay when jitter is disabled) is nondecreasing in the attempt index for each
error class, and — provided `max_delay ≥ 10`, as in the default
configuration — the server-error delay never exceeds the rate-limit delay
for the same attempt index; with jitter enabled each computed delay may
deviate from these values by up to ±10%. -/
theorem backoff_delay_monotone (cfg : RateLimitConfig) (attempt : ℕ) (isSrv : Bool)
    (j j' : ℚ) (hjit : cfg.jitter = false) (hb : 0 ≤ cfg.base_delay)
    (hm : 10 ≤ cfg.max_delay) :
    calculateBackoffDelay cfg attempt isSrv j ≤
      calculateBackoffDelay cfg (attempt + 1) isSrv j' ∧
    calculateBackoffDelay cfg attempt true j ≤ calculateBackoffDelay cfg attempt false j' := by
  have hpow : cfg.base_delay * 2 ^ attempt ≤ cfg.base_delay * 2 ^ (attempt + 1) := by
    apply mul_le_mul_of_nonneg_left _ hb
    exact pow_le_pow_right (by norm_num) (Nat.le_succ attempt)
  constructor
  · simp only [calculateBackoffDelay, hjit, Bool.false_eq_true, if_false]
    cases isSrv
    · simp only [Bool.false_eq_true, if_false]
      exact max_le_max (min_le_min hpow le_rfl) le_rfl
    · simp only [if_true]
      exact max_le_max (min_le_min hpow le_rfl) le_rfl
  · simp only [calculateBackoffDelay, hjit, Bool.false_eq_true, if_false, if_true]
    exact max_le_max (min_le_min le_rfl hm) le_rfl

/-- Witness for C7 (amended): successive delays at the default parameters
with jitter disabled. -/
theorem backoff_delay_monotone_witness :
    calculateBackoffDelay { jitter := false } 2 false 0 ≤
      calculateBackoffDelay { jitter := false } 3 false 0 :=
  (backoff_delay_monotone { jitter := false } 2 false 0 0 rfl (by norm_num) (by norm_num)).1

theorem updateChapters_none_iff (u : ChapterUpdate) (now : ℕ) (title : PyStr) :
    ∀ chs : List ChapterInfo, updateChapters u now title chs = none ↔
      ∀ ch ∈ chs, (ch.title == title) = false := by
  intro chs
  induction chs with
  | nil => simp [updateChapters]
  | cons ch rest ih =>
      by_cases h : (ch.title == title) = true
      · constructor
        · intro habs
          simp [updateChapters, h] at habs
        · intro hall
          have hfalse := hall ch (List.mem_cons_self _ _)
          rw [hfalse] at h
          exact Bool.noConfusion h
      · have h' : (ch.title == title) = false := by simpa using h
        constructor
        · intro hnone
          simp only [updateChapters, h', Bool.false_eq_true, if_false,
            Option.map_eq_none'] at hnone
          intro c hc
          rcases List.mem_cons.mp hc with rfl | hc
          · exact h'
          · exact (ih.mp hnone) c hc
        · intro hall
          simp only [updateChapters, h', Bool.false_eq_true, if_false,
            Option.map_eq_none']
          exact ih.mpr (fun c hc => hall c (List.mem_cons_of_mem _ hc))

theorem updateChapters_some_spec (u : ChapterUpdate) (now : ℕ) (title : PyStr) :
    ∀ (chs chs' : List ChapterInfo), updateChapters u now title chs = some chs' →
      ∃ i, i < chs.length ∧ ((chs.getD i default).title == title) = true ∧
        (∀ j, j < i → ((chs.getD j default).title == title) = false) ∧
        chs' = chs.set i (applyChapterUpdate u now (chs.getD i default)) := by
  intro chs
  induction chs with
  | nil => intro chs' h; simp [updateChapters] at h
  | cons ch rest ih =>
      intro chs' h
      by_cases hm : (ch.title == title) = true
      · simp only [updateChapters, hm, if_true, Option.some_inj] at h
        refine ⟨0, by simp, by simpa using hm, ?_, ?_⟩
        · intro j hj
          omega
        · rw [← h]
          rfl
      · have hm' : (ch.title == title) = false := by simpa using hm
        simp only [updateChapters, hm', Bool.false_eq_true, if_false,
          Option.map_eq_some'] at h
        obtain ⟨cs', hcs', rfl⟩ := h
        obtain ⟨i, hi, hmatch, hprev, hset⟩ := ih cs' hcs'
        refine ⟨i + 1, by simpa using Nat.succ_lt_succ hi, by simpa using hmatch, ?_, ?_⟩
        · intro j hj
          cases j with
          | zero => simpa using hm'
          | succ j2 =>
              have := hprev j2 (by omega)
              simpa using this
        · simp only [List.getD_cons_succ, List.set_cons_succ]
          exact congrArg (fun cs => ch :: cs) hset

theorem getD_mem_of_lt {α : Type} [Inhabited α] (chs : List α) (i : ℕ)
    (hi : i < chs.length) : chs.getD i default ∈ chs := by
  rw [List.getD_eq_get chs default hi]
  exact List.get_mem chs i hi

theorem chapters_title_index_unique (chs : List ChapterInfo)
    (huniq : (chs.map (fun ch => ch.title)).Nodup) (i j : ℕ)
    (hi : i < chs.length) (hj : j < chs.length)
    (htitle : (chs.getD i default).title = (chs.getD j default).title) : i = j := by
  have hi2 : i < (chs.map (fun ch => ch.title)).length := by simpa using hi
  have hj2 : j < (chs.map (fun ch => ch.title)).length := by simpa using hj
  have hmap : (chs.map (fun ch => ch.title)).get ⟨i, hi2⟩ =
      (chs.map (fun ch => ch.title)).get ⟨j, hj2⟩ := by
    simp only [List.get_map]
    rw [← List.getD_eq_get chs default hi, ← List.getD_eq_get chs default hj]
    exact htitle
  have := (List.Nodup.get_inj_iff huniq).mp hmap
  simpa using this

/-- C5: `update_chapter` on a loaded manifest with pairwise-distinct chapter
titles returns `false` exactly when no entry carries the given title, leaves
the whole manager state untouched in that case, and otherwise rewrites
exactly the single matching entry through `applyChapterUpdate` (stamping the
manifest-level `updated_at` too) and persists the resulting manifest before
returning; `applyChapterUpdate` itself overwrites exactly the supplied
fields, stamps the entry's `updated_at`, and keeps every other field. -/
theorem update_chapter_spec (m : PodcastManifest) (sv : Option PodcastManifest)
    (title : PyStr) (u : ChapterUpdate) (now : ℕ)
    (huniq : (m.chapters.map (fun ch => ch.title)).Nodup) :
    ((ManifestManager.update_chapter ⟨some m, sv⟩ title u now).1 = false ↔
      ∀ ch ∈ m.chapters, ch.title ≠ title) ∧
    ((ManifestManager.update_chapter ⟨some m, sv⟩ title u now).1 = false →
      (ManifestManager.update_chapter ⟨some m, sv⟩ title u now).2 = ⟨some m, sv⟩) ∧
    (∀ i, i < m.chapters.length → (m.chapters.getD i default).title = title →
      (ManifestManager.update_chapter ⟨some m, sv⟩ title u now).1 = true ∧
      (ManifestManager.update_chapter ⟨some m, sv⟩ title u now).2.manifest =
        some { m with
                chapters :=
                  m.chapters.set i (applyChapterUpdate u now (m.chapters.getD i default)),
                updated_at := now } ∧
      (ManifestManager.update_chapter ⟨some m, sv⟩ title u now).2.saved =
        (ManifestManager.update_chapter ⟨some m, sv⟩ title u now).2.manifest) ∧
    (∀ ch : ChapterInfo,
      (u.status = none → (applyChapterUpdate u now ch).status = ch.status) ∧
      (u.script_path = none → (applyChapterUpdate u now ch).script_path = ch.script_path) ∧
      (u.audio_path = none → (applyChapterUpdate u now ch).audio_path = ch.audio_path) ∧
      (u.text_chars = none → (applyChapterUpdate u now ch).text_chars = ch.text_chars) ∧
      (u.audio_duration = none →
        (applyChapterUpdate u now ch).audio_duration = ch.audio_duration) ∧
      (u.error_message = none →
        (applyChapterUpdate u now ch).error_message = ch.error_message) ∧
      (applyChapterUpdate u now ch).title = ch.title ∧
      (applyChapterUpdate u now ch).start_page = ch.start_page ∧
      (applyChapterUpdate u now ch).end_page = ch.end_page ∧
      (applyChapterUpdate u now ch).created_at = ch.created_at ∧
      (applyChapterUpdate u now ch).updated_at = some now) := by
  refine ⟨?_, ?_, ?_, ?_⟩
  · rcases hk : updateChapters u now title m.chapters with _ | chs2
    · simp only [ManifestManager.update_chapter, hk]
      rw [updateChapters_none_iff] at hk
      constructor
      · intro _ ch hch
        exact beq_eq_false_iff_ne.mp (hk ch hch)
      · intro _
        trivial
    · simp only [ManifestManager.update_chapter, hk]
      obtain ⟨i, hi, hmatch, _, _⟩ := updateChapters_some_spec u now title m.chapters chs2 hk
      constructor
      · intro habs
        exact absurd habs (by simp)
      · intro hall
        exfalso
        have hmem : m.chapters.getD i default ∈ m.chapters := getD_mem_of_lt m.chapters i hi
        exact hall (m.chapters.getD i default) hmem (eq_of_beq hmatch)
  · rcases hk : updateChapters u now title m.chapters with _ | chs2
    · intro _
      simp only [ManifestManager.update_chapter, hk]
    · intro habs
      simp only [ManifestManager.update_chapter, hk] at habs
      exact Bool.noConfusion habs
  · intro i hi htitle
    rcases hk : updateChapters u now title m.chapters with _ | chs2
    · exfalso
      rw [updateChapters_none_iff] at hk
      have hmem : m.chapters.getD i default ∈ m.chapters := getD_mem_of_lt m.chapters i hi
      have := hk (m.chapters.getD i default) hmem
      rw [htitle] at this
      simp at this
    · obtain ⟨i0, hi0, hmatch0, _, hset0⟩ :=
        updateChapters_some_spec u now title m.chapters chs2 hk
      have hieq : i = i0 := by
        apply chapters_title_index_unique m.chapters huniq i i0 hi hi0
        rw [htitle]
        exact (eq_of_beq hmatch0).symm
      subst hieq
      refine ⟨?_, ?_, ?_⟩
      · simp [ManifestManager.update_chapter, hk]
      · simp only [ManifestManager.update_chapter, hk, ManifestManager.save]
        rw [hset0]
      · simp only [ManifestManager.update_chapter, hk, ManifestManager.save]
  · intro ch
    refine ⟨?_, ?_, ?_, ?_, ?_, ?_, rfl, rfl, rfl, rfl, rfl⟩ <;>
      · intro h
        simp [applyChapterUpdate, h]

/-- The first chapter of the witness manifest. -/
def chW1 : ChapterInfo := { title := "Intro".toList, start_page := 1, end_page := 5 }

/-- The second chapter of the witness manifest. -/
def chW2 : ChapterInfo := { title := "Body".toList, start_page := 6, end_page := 20 }

/-- A concrete two-chapter manifest for witnesses. -/
def mW : PodcastManifest :=
  { pdf_path := "doc.pdf".toList, output_dir := "out".toList, model := "g".toList,
    voice := "Kore".toList, max_concurrency := 1, skip_existing := false,
    created_at := 0, updated_at := 0, chapters := [chW1, chW2] }

/-- Witness for C5: updating the second chapter's status succeeds. -/
theorem update_chapter_spec_witness :
    (ManifestManager.update_chapter ⟨some mW, none⟩ "Body".toList
      { status := some ChapterStatus.completed } 7).1 = true :=
  ((update_chapter_spec mW none "Body".toList { status := some ChapterStatus.completed } 7
      (by decide)).2.2.1 1 (by decide) (by decide)).1

theorem find?_set_of_pred_false {α : Type} [Inhabited α] (p : α → Bool) :
    ∀ (l : List α) (i : ℕ) (e : α), i < l.length →
      p (l.getD i default) = false → p e = false →
      (l.set i e).find? p = l.find? p := by
  intro l
  induction l with
  | nil => intro i e hi _ _; simp at hi
  | cons a t ih =>
      intro i e hi hpold hpe
      cases i with
      | zero =>
          simp only [List.getD_cons_zero] at hpold
          show (e :: t).find? p = (a :: t).find? p
          rw [List.find?_cons_of_neg _ (by simp [hpe]), List.find?_cons_of_neg _ (by simp [hpold])]
      | succ j =>
          have hj : j < t.length := by simpa using hi
          simp only [List.getD_cons_succ] at hpold
          show (a :: t.set j e).find? p = (a :: t).find? p
          rcases hpa : p a with _ | _
          · rw [List.find?_cons_of_neg _ (by simp [hpa]), List.find?_cons_of_neg _ (by simp [hpa])]
            exact ih j e hj hpold hpe
          · rw [List.find?_cons_of_pos _ hpa, List.find?_cons_of_pos _ hpa]

theorem update_chapter_preserves_get (mgr : ManifestManager) (t t2 : PyStr)
    (u : ChapterUpdate) (now : ℕ) (hne : t2 ≠ t) :
    ((mgr.update_chapter t2 u now).2).get_chapter t = mgr.get_chapter t := by
  rcases hm : mgr.manifest with _ | m
  · simp [ManifestManager.update_chapter, hm]
  · rcases hk : updateChapters u now t2 m.chapters with _ | chs2
    · simp [ManifestManager.update_chapter, hm, hk]
    · obtain ⟨i, hi, hmatch, _, hset⟩ := updateChapters_some_spec u now t2 m.chapters chs2 hk
      have htitleold : (m.chapters.getD i default).title = t2 := eq_of_beq hmatch
      have hpold : ((m.chapters.getD i default).title == t) = false := by
        rw [htitleold]
        exact beq_eq_false_iff_ne.mpr hne
      have hpnew : ((applyChapterUpdate u now (m.chapters.getD i default)).title == t) = false :=
        hpold
      simp only [ManifestManager.update_chapter, hm, hk, ManifestManager.save,
        ManifestManager.get_chapter, Option.some_bind]
      rw [hset]
      exact find?_set_of_pred_false (fun ch => ch.title == t) m.chapters i _ hi hpold hpnew

theorem fold_update_preserves_get (now : ℕ) (t : PyStr) :
    ∀ (ps : List (PyStr × PyStr)) (mgr : ManifestManager),
      t ∉ ps.map Prod.fst →
      (ps.foldl (fun acc tp =>
          (acc.update_chapter tp.1
            { status := some .audio_generated, audio_path := some tp.2 } now).2) mgr).get_chapter t =
        mgr.get_chapter t := by
  intro ps
  induction ps with
  | nil => intro mgr _; rfl
  | cons p rest ih =>
      intro mgr hmem
      simp only [List.map_cons, List.mem_cons, not_or] at hmem
      obtain ⟨h1, h2⟩ := hmem
      simp only [List.foldl_cons]
      rw [ih _ h2]
      exact update_chapter_preserves_get mgr t p.1 _ now (fun h => h1 h.symm)

theorem genChapterAudiosAux_all_success (synth : ℕ → PyStr → PyStr → Except PyStr PyStr) :
    ∀ (scripts : List (PyStr × PyStr)) (idx : ℕ),
      (∀ i, i < scripts.length →
        ∃ p, processChapter synth (idx + i) (scripts.getD i default).1
          (scripts.getD i default).2 = some p) →
      (genChapterAudiosAux synth idx scripts).map Prod.fst = scripts.map Prod.fst := by
  intro scripts
  induction scripts with
  | nil => intro idx _; rfl
  | cons s rest ih =>
      obtain ⟨title, content⟩ := s
      intro idx h
      obtain ⟨p, hp⟩ := h 0 (by simp)
      have hp2 : processChapter synth idx title content = some p := by simpa using hp
      simp only [genChapterAudiosAux, hp2, List.map_cons]
      congr 1
      apply ih
      intro i hi
      obtain ⟨p2, hp3⟩ := h (i + 1) (by simpa using Nat.succ_lt_succ hi)
      refine ⟨p2, ?_⟩
      have harith : idx + (i + 1) = idx + 1 + i := by omega
      rw [harith] at hp3
      simpa using hp3

theorem genChapterAudiosAux_one_failure (synth : ℕ → PyStr → PyStr → Except PyStr PyStr) :
    ∀ (scripts : List (PyStr × PyStr)) (idx k : ℕ), k < scripts.length →
      processChapter synth (idx + k) (scripts.getD k default).1
        (scripts.getD k default).2 = none →
      (∀ i, i < scripts.length → i ≠ k →
        ∃ p, processChapter synth (idx + i) (scripts.getD i default).1
          (scripts.getD i default).2 = some p) →
      (genChapterAudiosAux synth idx scripts).map Prod.fst =
        (scripts.eraseIdx k).map Prod.fst := by
  intro scripts
  induction scripts with
  | nil => intro idx k hk _ _; simp at hk
  | cons s rest ih =>
      obtain ⟨title, content⟩ := s
      intro idx k hk hfail hsucc
      cases k with
      | zero =>
          have hfail2 : processChapter synth idx title content = none := by simpa using hfail
          simp only [genChapterAudiosAux, hfail2, List.eraseIdx_cons_zero]
          apply genChapterAudiosAux_all_success
          intro i hi
          obtain ⟨p, hp⟩ := hsucc (i + 1) (by simpa using Nat.succ_lt_succ hi) (by omega)
          refine ⟨p, ?_⟩
          have harith : idx + (i + 1) = idx + 1 + i := by omega
          rw [harith] at hp
          simpa using hp
      | succ k2 =>
          have hk2 : k2 < rest.length := by simpa using hk
          obtain ⟨p, hp⟩ := hsucc 0 (by simp) (by omega)
          have hp2 : processChapter synth idx title content = some p := by simpa using hp
          simp only [genChapterAudiosAux, hp2, List.eraseIdx_cons_succ, List.map_cons]
          congr 1
          apply ih (idx + 1) k2 hk2
          · have harith : idx + 1 + k2 = idx + (k2 + 1) := by omega
            rw [harith]
            simpa using hfail
          · intro i hi hik
            obtain ⟨p2, hp3⟩ := hsucc (i + 1) (by simpa using Nat.succ_lt_succ hi) (by omega)
            refine ⟨p2, ?_⟩
            have harith : idx + (i + 1) = idx + 1 + i := by omega
            rw [harith] at hp3
            simpa using hp3

theorem getD_title_not_mem_eraseIdx :
    ∀ (l : List (PyStr × PyStr)) (k : ℕ), k < l.length → (l.map Prod.fst).Nodup →
      (l.getD k default).1 ∉ (l.eraseIdx k).map Prod.fst := by
  intro l
  induction l with
  | nil => intro k hk _; simp at hk
  | cons a t ih =>
      intro k hk hnd
      simp only [List.map_cons, List.nodup_cons] at hnd
      cases k with
      | zero =>
          simp only [List.getD_cons_zero, List.eraseIdx_cons_zero]
          exact hnd.1
      | succ k2 =>
          have hk2 : k2 < t.length := by simpa using hk
          simp only [List.getD_cons_succ, List.eraseIdx_cons_succ, List.map_cons,
            List.mem_cons, not_or]
          constructor
          · intro habs
            apply hnd.1
            have hmem2 : (t.getD k2 default).1 ∈ t.map Prod.fst :=
              List.mem_map_of_mem Prod.fst (getD_mem_of_lt t k2 hk2)
            rw [← habs]
            exact hmem2
          · exact ih k2 hk2 hnd.2

/-- C4 amended: when the audio-synthesis call for the `k`-th work item always
fails (after its internal retries) while every other item succeeds, and
titles are pairwise distinct, the audio-generation stage returns normally (it
is a total function evaluated here), its result contains exactly the items
other than `k` (in order), and the failed item's manifest entry is left
completely unchanged — it is not recorded as `FAILED`, since the stage only
writes `AUDIO_GENERATED` records for the successful items. -/
theorem generateAudioStage_partial_failure (synth : ℕ → PyStr → PyStr → Except PyStr PyStr)
    (scripts : List (PyStr × PyStr)) (mgr : ManifestManager) (now k : ℕ)
    (hk : k < scripts.length)
    (hfail : processChapter synth (1 + k) (scripts.getD k default).1
      (scripts.getD k default).2 = none)
    (hsucc : ∀ i, i < scripts.length → i ≠ k →
      ∃ p, processChapter synth (1 + i) (scripts.getD i default).1
        (scripts.getD i default).2 = some p)
    (hnodup : (scripts.map Prod.fst).Nodup) :
    ((generateAudioStage synth mgr scripts now).1).map Prod.fst =
      (scripts.eraseIdx k).map Prod.fst ∧
    ((generateAudioStage synth mgr scripts now).2).get_chapter (scripts.getD k default).1 =
      mgr.get_chapter (scripts.getD k default).1 := by
  have h1 : (generate_chapter_audios_async synth scripts).map Prod.fst =
      (scripts.eraseIdx k).map Prod.fst :=
    genChapterAudiosAux_one_failure synth scripts 1 k hk hfail hsucc
  refine ⟨h1, ?_⟩
  apply fold_update_preserves_get
  rw [h1]
  exact getD_title_not_mem_eraseIdx scripts k hk hnodup

/-- The three-item script set of the C4 scenario. -/
def scriptsW : List (PyStr × PyStr) :=
  [("T1".toList, "c1".toList), ("T2".toList, "c2".toList), ("T3".toList, "c3".toList)]

/-- A synthesizer that always fails (non-retryably) on the second item and
succeeds on the others. -/
def synthW : ℕ → PyStr → PyStr → Except PyStr PyStr :=
  fun idx _ _ => if idx = 2 then .error "boom".toList else .ok "p.mp3".toList

/-- A manifest whose three entries all start at `SCRIPT_GENERATED`. -/
def mgrW4 : ManifestManager :=
  ⟨some { pdf_path := "doc.pdf".toList, output_dir := "out".toList, model := "g".toList,
          voice := "Kore".toList, max_concurrency := 1, skip_existing := false,
          created_at := 0, updated_at := 0,
          chapters :=
            [{ title := "T1".toList, start_page := 1, end_page := 1,
               status := .script_generated },
             { title := "T2".toList, start_page := 2, end_page := 2,
               status := .script_generated },
             { title := "T3".toList, start_page := 3, end_page := 3,
               status := .script_generated }] }, none⟩

/-- C4 counterexample: in the three-item scenario the stage result contains
exactly items 1 and 3 and the call returns normally, but the failed item 2
is not recorded as `FAILED` in the manifest: its entry keeps status
`SCRIPT_GENERATED` and no error message, refuting the claim's
failure-recording part. -/
theorem generate_audio_no_failed_record :
    ((generateAudioStage synthW mgrW4 scriptsW 7).1).map Prod.fst =
      ["T1".toList, "T3".toList] ∧
    (((generateAudioStage synthW mgrW4 scriptsW 7).2).get_chapter "T2".toList).map
        (fun ch => ch.status) = some ChapterStatus.script_generated ∧
    (((generateAudioStage synthW mgrW4 scriptsW 7).2).get_chapter "T2".toList).map
        (fun ch => ch.status) ≠ some ChapterStatus.failed ∧
    (((generateAudioStage synthW mgrW4 scriptsW 7).2).get_chapter "T2".toList).map
        (fun ch => ch.error_message) = some none := by
  decide

/-- Witness for C4 (amended) at the concrete three-item scenario. -/
theorem generateAudioStage_partial_failure_witness :
    ((generateAudioStage synthW mgrW4 scriptsW 7).1).map Prod.fst =
      (scriptsW.eraseIdx 1).map Prod.fst :=
  (generateAudioStage_partial_failure synthW scriptsW mgrW4 7 1 (by decide) (by decide)
    (fun i hi hik => by
      have h3 : i < 3 := hi
      interval_cases i
      · exact ⟨"p.mp3".toList, rfl⟩
      · exact absurd rfl hik
      · exact ⟨"p.mp3".toList, rfl⟩)
    (by decide)).1

theorem chapter_status_counts_lookup (mgr : ManifestManager) (st : ChapterStatus) :
    (ChapterStatus.all.map
      (fun s => (s.value, (mgr.get_chapters_by_status s).length))).lookup st.value =
      some (mgr.get_chapters_by_status st).length := by
  cases st <;> rfl

theorem gps_chapter_fields (m : PodcastManifest) (sv : Option PodcastManifest)
    (hmode : m.use_sections = false ∨ m.sections = []) :
    (ManifestManager.get_progress_summary ⟨some m, sv⟩).map ProgressSummary.total =
      some m.chapters.length ∧
    (ManifestManager.get_progress_summary ⟨some m, sv⟩).map ProgressSummary.completed =
      some (m.chapters.filter (fun ch => ch.status == ChapterStatus.completed)).length ∧
    (ManifestManager.get_progress_summary ⟨some m, sv⟩).map ProgressSummary.failed =
      some ((m.chapters.filter (fun ch => ch.status == ChapterStatus.failed)).length +
        (m.chapters.filter (fun ch => ch.status == ChapterStatus.failed_rate_limit)).length) ∧
    (ManifestManager.get_progress_summary ⟨some m, sv⟩).map ProgressSummary.progress_percent =
      some (pyRound1 (if 0 < m.chapters.length then
        ((m.chapters.filter (fun ch => ch.status == ChapterStatus.completed)).length : ℚ) /
          (m.chapters.length : ℚ) * 100
        else 0)) ∧
    (∀ st : ChapterStatus,
      (ManifestManager.get_progress_summary ⟨some m, sv⟩).map
          (fun s => s.status_counts.lookup st.value) =
        some (some (m.chapters.filter (fun ch => ch.status == st)).length)) ∧
    (ManifestManager.get_progress_summary ⟨some m, sv⟩).map ProgressSummary.episode_ready =
      some (some m.episode_path.isSome) := by
  have hcond : ¬(m.use_sections = true ∧ ¬m.sections.isEmpty = true) := by
    rcases hmode with h | h
    · rintro ⟨h1, _⟩
      rw [h] at h1
      exact Bool.noConfusion h1
    · rintro ⟨_, h2⟩
      apply h2
      rw [h]
      rfl
  refine ⟨?_, ?_, ?_, ?_, ?_, ?_⟩ <;>
    simp only [ManifestManager.get_progress_summary, if_neg hcond, Option.map_some',
      chapter_status_counts_lookup, Option.getD_some] <;>
    first
      | rfl
      | (intro st; rfl)

/-- C6 amended: for a loaded chapter-mode manifest (`use_sections` off or no
sections), `get_progress_summary` is a pure read returning the chapter count,
the completed count, the failed count (`FAILED` plus `FAILED_RATE_LIMIT`),
`progress_percent = completed / total × 100` rounded to one decimal place
(`0` when the total is `0`), a correct count for every status, and an
`episode_ready` boolean that is true iff an episode path has been set; a
section-mode summary instead omits the `episode_ready` key entirely. -/
theorem get_progress_summary_spec (m : PodcastManifest) (sv : Option PodcastManifest)
    (hmode : m.use_sections = false ∨ m.sections = []) :
    (ManifestManager.get_progress_summary ⟨some m, sv⟩).map ProgressSummary.total =
      some m.chapters.length ∧
    (ManifestManager.get_progress_summary ⟨some m, sv⟩).map ProgressSummary.completed =
      some (m.chapters.filter (fun ch => ch.status == ChapterStatus.completed)).length ∧
    (ManifestManager.get_progress_summary ⟨some m, sv⟩).map ProgressSummary.failed =
      some ((m.chapters.filter (fun ch => ch.status == ChapterStatus.failed)).length +
        (m.chapters.filter (fun ch => ch.status == ChapterStatus.failed_rate_limit)).length) ∧
    (ManifestManager.get_progress_summary ⟨some m, sv⟩).map ProgressSummary.progress_percent =
      some (pyRound1 (if 0 < m.chapters.length then
        ((m.chapters.filter (fun ch => ch.status == ChapterStatus.completed)).length : ℚ) /
          (m.chapters.length : ℚ) * 100
        else 0)) ∧
    (∀ st : ChapterStatus,
      (ManifestManager.get_progress_summary ⟨some m, sv⟩).map
          (fun s => s.status_counts.lookup st.value) =
        some (some (m.chapters.filter (fun ch => ch.status == st)).length)) ∧
    (ManifestManager.get_progress_summary ⟨some m, sv⟩).map ProgressSummary.episode_ready =
      some (some m.episode_path.isSome) :=
  gps_chapter_fields m sv hmode

/-- The manifest of the section-mode counterexample: one pending section, no
episode path. -/
def mgrSecM : PodcastManifest :=
  { pdf_path := "doc.pdf".toList, output_dir := "out".toList, model := "g".toList,
    voice := "Kore".toList, max_concurrency := 1, skip_existing := false,
    created_at := 0, updated_at := 0, chapters := [],
    sections := [{ title := "S".toList, section_number := "1.1".toList,
                   start_page := 1, end_page := 2 }],
    use_sections := true }

/-- The section-mode manager of the counterexample. -/
def mgrSec : ManifestManager := ⟨some mgrSecM, none⟩

/-- A chapter-mode manifest with one completed chapter out of three. -/
def mgrThirdM : PodcastManifest :=
  { pdf_path := "doc.pdf".toList, output_dir := "out".toList, model := "g".toList,
    voice := "Kore".toList, max_concurrency := 1, skip_existing := false,
    created_at := 0, updated_at := 0,
    chapters :=
      [{ title := "A".toList, start_page := 1, end_page := 1, status := .completed },
       { title := "B".toList, start_page := 2, end_page := 2 },
       { title := "C".toList, start_page := 3, end_page := 3 }] }

/-- C6 counterexample: a section-mode summary has no `episode_ready` key at
all even though no episode path is set (the claim demands the boolean
`false`), and with 1 of 3 chapters completed the returned percentage is the
rounded `33.3`, not `completed / total × 100 = 100 / 3` — refuting the claim
as stated over all manifest states. -/
theorem get_progress_summary_counterexample :
    (ManifestManager.get_progress_summary mgrSec).map ProgressSummary.episode_ready =
      some none ∧
    ¬((ManifestManager.get_progress_summary mgrSec).map ProgressSummary.episode_ready =
      some (some false)) ∧
    mgrSec.manifest.map PodcastManifest.episode_path = some none ∧
    (ManifestManager.get_progress_summary ⟨some mgrThirdM, none⟩).map
      ProgressSummary.progress_percent = some (333 / 10 : ℚ) ∧
    ¬((333 / 10 : ℚ) = (1 : ℚ) / 3 * 100) := by
  refine ⟨rfl, ?_, rfl, ?_, by norm_num⟩
  · intro habs
    rw [show (ManifestManager.get_progress_summary mgrSec).map ProgressSummary.episode_ready =
      some none from rfl] at habs
    exact Option.noConfusion (Option.some.inj habs)
  · have h := (gps_chapter_fields mgrThirdM none (Or.inl rfl)).2.2.2.1
    rw [h]
    have hc : (mgrThirdM.chapters.filter
        (fun ch => ch.status == ChapterStatus.completed)).length = 1 := rfl
    have hl : mgrThirdM.chapters.length = 3 := rfl
    rw [hc, hl]
    have hval : (if 0 < 3 then ((1 : ℕ) : ℚ) / ((3 : ℕ) : ℚ) * 100 else 0) = 100 / 3 := by
      norm_num
    rw [hval]
    have hfl : (⌊(100 : ℚ) / 3 * 10⌋ : ℤ) = 333 := by
      rw [Int.floor_eq_iff]
      constructor <;> norm_num
    simp only [pyRound1, roundHalfEven, hfl]
    rw [if_pos (by norm_num : (100 : ℚ) / 3 * 10 - ((333 : ℤ) : ℚ) < 1 / 2)]
    norm_num

/-- The manifest of the claim's concrete instance:
`{COMPLETED: 3, FAILED: 1, PENDING: 1}`. -/
def mgr5m : PodcastManifest :=
  { pdf_path := "doc.pdf".toList, output_dir := "out".toList, model := "g".toList,
    voice := "Kore".toList, max_concurrency := 1, skip_existing := false,
    created_at := 0, updated_at := 0,
    chapters :=
      [{ title := "A".toList, start_page := 1, end_page := 1, status := .completed },
       { title := "B".toList, start_page := 2, end_page := 2, status := .completed },
       { title := "C".toList, start_page := 3, end_page := 3, status := .completed },
       { title := "D".toList, start_page := 4, end_page := 4, status := .failed },
       { title := "E".toList, start_page := 5, end_page := 5 }] }

/-- Witness for C6 (amended) at the claim's concrete instance: 60 percent
complete and `episode_ready = false` while no episode path is set. -/
theorem get_progress_summary_spec_witness :
    (ManifestManager.get_progress_summary ⟨some mgr5m, none⟩).map
        ProgressSummary.progress_percent = some 60 ∧
    (ManifestManager.get_progress_summary ⟨some mgr5m, none⟩).map
        ProgressSummary.episode_ready = some (some false) := by
  have h := get_progress_summary_spec mgr5m none (Or.inl rfl)
  refine ⟨?_, ?_⟩
  · rw [h.2.2.2.1]
    have hc : (mgr5m.chapters.filter
        (fun ch => ch.status == ChapterStatus.completed)).length = 3 := rfl
    have hl : mgr5m.chapters.length = 5 := rfl
    rw [hc, hl]
    have hval : (if 0 < 5 then ((3 : ℕ) : ℚ) / ((5 : ℕ) : ℚ) * 100 else 0) = 60 := by
      norm_num
    rw [hval]
    have hfl : (⌊(60 : ℚ) * 10⌋ : ℤ) = 600 := by
      rw [Int.floor_eq_iff]
      constructor <;> norm_num
    simp only [pyRound1, roundHalfEven, hfl]
    rw [if_pos (by norm_num : (60 : ℚ) * 10 - ((600 : ℤ) : ℚ) < 1 / 2)]
    norm_num
  · rw [h.2.2.2.2.2]
    rfl

end PdfPodcast
